import Mathlib

/-!
Verification development for the changelog enforcement hook
(src/plugins/changelog/hooks/check-changelog-before-commit.py).

The Python script is shallowly embedded: pure text processing becomes Lean
functions over `String` and `List Char`, the process environment (git exit
codes and outputs, the filesystem) becomes an explicit `Env` record, and the
whole hook becomes a pure function `main : Option InputEvent → Env → Outcome`.
The regular expressions of the source are hand-compiled into explicit
scanners whose semantics follow Python `re.search` on the ASCII fragment
(word characters, whitespace and lower-casing are modelled on ASCII).
-/

namespace ChangelogHook

/-- Python `\s` on the ASCII range: space, tab, newline, carriage return,
vertical tab, form feed. -/
def pyIsSpace (c : Char) : Bool :=
  c = ' ' || c = '\t' || c = '\n' || c = '\r' || c = '\x0b' || c = '\x0c'

/-- Python `\w` on the ASCII range: letters, digits, underscore. -/
def isWordChar (c : Char) : Bool :=
  c.isAlphanum || c = '_'

/-- ASCII lower-casing of a single character, as `str.lower` does on ASCII. -/
def pyLowerChar (c : Char) : Char :=
  if 65 ≤ c.toNat && c.toNat ≤ 90 then Char.ofNat (c.toNat + 32) else c

/-- ASCII model of `prompt.lower()`. -/
def pyLower (s : String) : String :=
  ⟨s.data.map pyLowerChar⟩

/-- Consume an exact literal from the front of the input; return the
remainder on success. -/
def consumeLit : List Char → List Char → Option (List Char)
  | [], s => some s
  | _ :: _, [] => none
  | a :: as, b :: bs => if b = a then consumeLit as bs else none

/-- All remainders reachable by consuming one or more `\s` characters
(the nondeterministic expansion of `\s+`). -/
def wsPlus : List Char → List (List Char)
  | [] => []
  | c :: cs => if pyIsSpace c then cs :: wsPlus cs else []

/-- All remainders reachable by consuming zero or more non-newline
characters (the nondeterministic expansion of `.*` without DOTALL). -/
def dotStar : List Char → List (List Char)
  | [] => [[]]
  | c :: cs => (c :: cs) :: (if c = '\n' then [] else dotStar cs)

/-- A word boundary after a word character: the remainder is empty or starts
with a non-word character. -/
def atWordEnd : List Char → Bool
  | [] => true
  | c :: _ => !isWordChar c

/-- Scanner for `re.search`: try the matcher at every position; the matcher
is applied only where a leading `\b` holds, that is where the previous
character (if any) is not a word character.  All five source patterns begin
with `\b` followed by a word character, so this boundary test is exactly
the precondition of a match. -/
def searchFrom (m : List Char → Bool) : Bool → List Char → Bool
  | prevWord, [] => !prevWord && m []
  | prevWord, c :: cs => (!prevWord && m (c :: cs)) || searchFrom m (isWordChar c) cs

/-- Matcher for the tail of `\bgit\s+commit\b`, applied at a candidate
start position. -/
def matchGitCommit (s : List Char) : Bool :=
  match consumeLit (("git").data) s with
  | none => false
  | some r =>
    (wsPlus r).any (fun r2 =>
      match consumeLit (("commit").data) r2 with
      | none => false
      | some r3 => atWordEnd r3)

/-- Matcher for `changes?\b`: the literal `change`, an optional `s`, then a
word boundary. -/
def matchChangeWord (r : List Char) : Bool :=
  match consumeLit (("change").data) r with
  | none => false
  | some r4 =>
    atWordEnd r4 ||
      (match consumeLit (("s").data) r4 with
       | none => false
       | some r5 => atWordEnd r5)

/-- Matcher for the tail of `\bcommit\s+(the\s+)?changes?\b`. -/
def matchCommitChanges (s : List Char) : Bool :=
  match consumeLit (("commit").data) s with
  | none => false
  | some r =>
    (wsPlus r).any (fun r2 =>
      matchChangeWord r2 ||
        (match consumeLit (("the").data) r2 with
         | none => false
         | some rt => (wsPlus rt).any matchChangeWord))

/-- Matcher for the tail of `\bcreate\s+a\s+commit\b`. -/
def matchCreateACommit (s : List Char) : Bool :=
  match consumeLit (("create").data) s with
  | none => false
  | some r =>
    (wsPlus r).any (fun r2 =>
      match consumeLit (("a").data) r2 with
      | none => false
      | some r3 =>
        (wsPlus r3).any (fun r4 =>
          match consumeLit (("commit").data) r4 with
          | none => false
          | some r5 => atWordEnd r5))

/-- Matcher for the tail of `\bmake\s+a\s+commit\b`. -/
def matchMakeACommit (s : List Char) : Bool :=
  match consumeLit (("make").data) s with
  | none => false
  | some r =>
    (wsPlus r).any (fun r2 =>
      match consumeLit (("a").data) r2 with
      | none => false
      | some r3 =>
        (wsPlus r3).any (fun r4 =>
          match consumeLit (("commit").data) r4 with
          | none => false
          | some r5 => atWordEnd r5))

/-- Matcher for the tail of `\bcommit\s+.*\s+to\s+git\b`. -/
def matchCommitToGit (s : List Char) : Bool :=
  match consumeLit (("commit").data) s with
  | none => false
  | some r =>
    (wsPlus r).any (fun r2 =>
      (dotStar r2).any (fun r3 =>
        (wsPlus r3).any (fun r4 =>
          match consumeLit (("to").data) r4 with
          | none => false
          | some r5 =>
            (wsPlus r5).any (fun r6 =>
              match consumeLit (("git").data) r6 with
              | none => false
              | some r7 => atWordEnd r7))))

/-- Embedding of `is_commit_attempt`: lower-case the prompt and search it
for any of the five fixed commit phrase patterns. -/
def is_commit_attempt (prompt : String) : Bool :=
  let p := (pyLower prompt).data
  searchFrom matchGitCommit false p ||
  searchFrom matchCommitChanges false p ||
  searchFrom matchCreateACommit false p ||
  searchFrom matchMakeACommit false p ||
  searchFrom matchCommitToGit false p

example : is_commit_attempt ("please git commit this") = true := by decide
example : is_commit_attempt ("commit the changes") = true := by decide
example : is_commit_attempt ("Make a Commit now") = true := by decide
example : is_commit_attempt ("commit everything to git") = true := by decide
example : is_commit_attempt ("what time is it") = false := by decide
example : is_commit_attempt ("the committee decided") = false := by decide

/-! ### Substring machinery

Python string containment (`needle in hay`) and the leftmost-match
behaviour of `re.search` on a literal both reduce to finding the first
occurrence of a substring.  `afterFirst` returns the remainder after the
first occurrence of the needle; `upToFirst` returns the part before the
first occurrence (the whole input when the needle never occurs), which is
exactly the extent of a lazy group `(.*?)` bounded by a literal lookahead
or end of input. -/

/-- Remainder after the first occurrence of `n` in the input, if any. -/
def afterFirst (n : List Char) : List Char → Option (List Char)
  | [] => if n.isPrefixOf ([] : List Char) then some [] else none
  | c :: cs =>
    if n.isPrefixOf (c :: cs) then some ((c :: cs).drop n.length)
    else afterFirst n cs

/-- Part of the input before the first occurrence of `n`; the whole input
when `n` does not occur. -/
def upToFirst (n : List Char) : List Char → List Char
  | [] => []
  | c :: cs =>
    if n.isPrefixOf (c :: cs) then []
    else c :: upToFirst n cs

/-- Python string containment `needle in hay`. -/
def substrOf (needle hay : String) : Bool :=
  (afterFirst needle.data hay.data).isSome

/-! ### Changelog structure analysis (`check_unused_sections` internals) -/

/-- The literal of the Unreleased section regex `## \[Unreleased\]`. -/
def unrLit : List Char := ("## [Unreleased]").data

/-- The literal of the lookahead `## \[` bounding the Unreleased section. -/
def sepLit : List Char := ("## [").data

/-- The literal of the lookahead `###` bounding a category content group. -/
def hashesLit : List Char := ("###").data

/-- Embedding of `re.search(r'## \[Unreleased\](.*?)(?=## \[|\Z)', content,
re.DOTALL)` returning group 1: the text after the first occurrence of
`## [Unreleased]` up to the next occurrence of `## [` or end of document. -/
def extractUnreleased (content : String) : Option (List Char) :=
  (afterFirst unrLit content.data).map (upToFirst sepLit)

/-- Embedding of matching `\s*\n` against a prefix of the input with Python
greedy-then-backtrack semantics: consume the maximal whitespace run
truncated at its last newline; fail when the whitespace run holds no
newline. -/
def dropWsNl : List Char → Option (List Char)
  | [] => none
  | c :: cs =>
    if pyIsSpace c then
      match dropWsNl cs with
      | some r => some r
      | none => if c = '\n' then some cs else none
    else none

/-- Try the category heading pattern `### <cat>\s*\n` at one position:
the literal must be a prefix, followed by `\s*\n`.  Returns the remainder
after the match. -/
def headingMatchAt (lit : List Char) (s : List Char) : Option (List Char) :=
  if lit.isPrefixOf s then dropWsNl (s.drop lit.length) else none

/-- Leftmost match of the category heading pattern in the section, as
`re.search` finds it; returns the remainder after the matched heading.
The source runs two searches (the presence test
`re.search(rf'### {category}\s*\n', ...)` and the content search
`re.search(rf'### {category}\s*\n(.*?)(?=###|\Z)', ...)`); both match at
exactly the positions where `headingMatchAt` succeeds, because the group
`(.*?)(?=###|\Z)` can always match, so one scanner serves both. -/
def findCategoryMatch (lit : List Char) : List Char → Option (List Char)
  | [] => none
  | c :: cs =>
    match headingMatchAt lit (c :: cs) with
    | some r => some r
    | none => findCategoryMatch lit cs

/-- Embedding of `str.strip()` (ASCII whitespace model). -/
def pyStrip (s : List Char) : List Char :=
  ((s.dropWhile pyIsSpace).reverse.dropWhile pyIsSpace).reverse

/-- Each step of the comment scan shortens its input, so the input length
is enough fuel for `stripCommentsFuel`. -/
theorem afterFirst_length_le (n : List Char) :
    ∀ s r, afterFirst n s = some r → r.length ≤ s.length := by
  intro s
  induction s with
  | nil =>
    intro r h
    unfold afterFirst at h
    split at h
    · simp_all
    · simp_all
  | cons c cs ih =>
    intro r h
    unfold afterFirst at h
    split at h
    · simp only [Option.some.injEq] at h
      subst h
      simp
    · exact le_trans (ih r h) (by simp)

/-- Fuelled scanner behind `stripComments`; the fuel only bounds the
recursion depth (each step consumes at least one character, so fuel equal
to the input length never runs out). -/
def stripCommentsFuel : Nat → List Char → List Char
  | _, [] => []
  | 0, s => s
  | fuel + 1, c :: cs =>
    if (("<!--").data).isPrefixOf (c :: cs) then
      match afterFirst (("-->").data) ((c :: cs).drop 4) with
      | some r => stripCommentsFuel fuel r
      | none => c :: stripCommentsFuel fuel cs
    else c :: stripCommentsFuel fuel cs

/-- Embedding of `re.sub(r'<!--.*?-->', '', s, flags=re.DOTALL)`: remove
each non-overlapping leftmost comment block (a `<!--` with the nearest
following `-->`).  When a `<!--` has no closing `-->` anywhere after it,
no match starts there or later, so the character is kept. -/
def stripComments (s : List Char) : List Char :=
  stripCommentsFuel s.length s

/-- Fixed category list, in source order. -/
def categories : List String :=
  [("Added"), ("Changed"), ("Deprecated"), ("Removed"), ("Fixed"), ("Security")]

/-- The heading literal `### <cat>` of a category. -/
def catLit (cat : String) : List Char := (("### ") ++ cat).data

/-- Embedding of the per-category body of the source loop: the category is
an empty finding when its heading pattern matches somewhere in the section
and the group content (lazy up to the next `###` or section end), stripped,
with complete HTML comment blocks removed, stripped again, is empty. -/
def isEmptyCategory (cat : String) (sec : List Char) : Bool :=
  match findCategoryMatch (catLit cat) sec with
  | none => false
  | some r =>
    (pyStrip (stripComments (pyStrip (upToFirst hashesLit r)))).isEmpty

/-- The ordered list of empty-finding category names of one section. -/
def emptySections (sec : List Char) : List String :=
  categories.filter (fun cat => isEmptyCategory cat sec)

/-- Content-level part of `check_unused_sections`: everything after the
file has been located and read.  Returns `none` (the not-applicable
sentinel) when there is no Unreleased section or no empty category. -/
def analyzeContent (content : String) : Option (List String) :=
  match extractUnreleased content with
  | none => none
  | some sec =>
    let es := emptySections sec
    if es.isEmpty then none else some es

example : analyzeContent ("## [Unreleased]\n### Added\n- fixed bug\n") = none := by decide
example : analyzeContent ("## [Unreleased]\n### Added\n<!-- nothing yet -->\n")
    = some [("Added")] := by decide
example : analyzeContent ("no section here") = none := by decide

/-! ### Environment and the Repository State Inspector -/

/-- The candidate changelog filenames, in source order. -/
def candidates : List String :=
  [("CHANGELOG.md"), ("CHANGELOG.MD"), ("changelog.md")]

/-- State of the working directory as the hook observes it.
`gitDirExit` is the return code of `run_git_command(["git", "rev-parse",
"--git-dir"], cwd)` (a timeout or exception is already folded into a
nonzero code by `run_git_command`).  `fileExists` is `Path(cwd, name)
.exists()` for each candidate name; `content` is the result of
`read_text` (`none` models a read failure).  `staged` and `unstaged` are
the stripped stdout of `git diff --cached --name-only` and
`git diff --name-only` (an empty string on failure or timeout). -/
structure Env where
  gitDirExit : Nat
  fileExists : String → Bool
  content : String → Option String
  staged : String
  unstaged : String

/-- Embedding of `check_changelog_modified`: fail-open outside a git
repository; with no candidate file present, report untouched; otherwise a
candidate counts as touched when its name occurs as a substring of the
staged output, then of the unstaged output. -/
def check_changelog_modified (env : Env) : Bool :=
  if env.gitDirExit ≠ 0 then true
  else
    let changelog_files := candidates.filter env.fileExists
    if changelog_files.isEmpty then false
    else if changelog_files.any (fun f => substrOf f env.staged) then true
    else changelog_files.any (fun f => substrOf f env.unstaged)

/-- Embedding of `check_unused_sections`: locate the first existing
candidate file, read it, and analyze its content; `none` models the
Python `None` sentinel (no file, unreadable file, no Unreleased section,
or no empty category). -/
def check_unused_sections (env : Env) : Option (List String) :=
  match candidates.find? env.fileExists with
  | none => none
  | some f =>
    match env.content f with
    | none => none
    | some doc => analyzeContent doc

/-! ### Decision assembly (`main`) -/

/-- The parsed stdin event; `prompt` defaults to the empty string when the
field is missing. -/
structure InputEvent where
  prompt : String

/-- The JSON object printed on a blocking outcome. -/
structure BlockPayload where
  decision : String
  reason : String
  hookEventName : String
  additionalContext : String
deriving DecidableEq

/-- Terminal result of one hook invocation: exit 0 with no payload, or
exit 2 with a printed block payload. -/
inductive Outcome where
  | allow : Outcome
  | block : BlockPayload → Outcome
deriving DecidableEq

/-- Process exit code of an outcome. -/
def Outcome.exitCode : Outcome → Nat
  | .allow => 0
  | .block _ => 2

/-- Fixed prefix of the cleanup block message, up to the category list. -/
def cleanupHead : String :=
  ("⚠️  Changelog cleanup required!\n\nYour CHANGELOG.md has empty sections that should be removed before committing:\n")

/-- Fixed suffix of the cleanup block message, after the category list. -/
def cleanupTail : String :=
  ("\n\nPlease remove these empty category headings from the [Unreleased] section to keep the changelog clean.\n\nOnly include category headings that have actual entries under them.\n\n💡 Tip: Edit CHANGELOG.md to remove the empty ### headings, then stage the file again.")

/-- The cleanup block message with the joined category list spliced in. -/
def cleanupReason (sections_list : String) : String :=
  cleanupHead ++ sections_list ++ cleanupTail

/-- The changelog-required block message. -/
def requiredReason : String :=
  ("⚠️  Changelog update required!\n\nYou\x27re attempting to commit changes without updating the CHANGELOG.md file.\n\nPlease:\n1. Add an entry to CHANGELOG.md describing your changes\n2. Follow the Keep a Changelog format (https://keepachangelog.com/)\n3. Add the changes under the [Unreleased] section\n4. Stage the changelog file: git add CHANGELOG.md\n5. Then retry your commit\n\n💡 Tip: You can use /changelog:changelog-add command to add an entry quickly.")

/-- Payload printed when empty changelog sections are found. -/
def cleanupPayload (empty_sections : List String) : BlockPayload where
  decision := ("block")
  reason := cleanupReason (String.intercalate (", ") empty_sections)
  hookEventName := ("UserPromptSubmit")
  additionalContext := ("Empty changelog sections should be removed before committing.")

/-- Payload printed when no changelog update was found. -/
def requiredPayload : BlockPayload where
  decision := ("block")
  reason := requiredReason
  hookEventName := ("UserPromptSubmit")
  additionalContext := ("The changelog must be updated before committing code changes.")

/-- Embedding of `main`.  `input = none` models every failure of reading
or shaping the stdin event (malformed JSON, a non-object payload, a
non-string prompt): the top-level handler turns any such fault into exit 0
after printing the error on stderr only.  The `if es.isEmpty` branch
mirrors the Python truthiness test `if empty_sections:` (the analyzer in
fact never returns an empty list). -/
def main (input : Option InputEvent) (env : Env) : Outcome :=
  match input with
  | none => .allow
  | some ev =>
    if ¬ is_commit_attempt ev.prompt then .allow
    else if check_changelog_modified env then
      match check_unused_sections env with
      | some es => if es.isEmpty then .allow else .block (cleanupPayload es)
      | none => .allow
    else .block requiredPayload

/-! ### Theory of the substring scanners -/

theorem afterFirst_eq_none_iff (n : List Char) :
    ∀ s, afterFirst n s = none ↔ ¬ n <:+: s := by
  intro s
  induction s with
  | nil =>
    unfold afterFirst
    by_cases h : n.isPrefixOf ([] : List Char) = true
    · rw [if_pos h]
      rw [List.isPrefixOf_iff_prefix, List.prefix_nil] at h
      subst h
      simp
    · rw [if_neg h]
      rw [List.isPrefixOf_iff_prefix, List.prefix_nil] at h
      simp [List.infix_nil, h]
  | cons c cs ih =>
    unfold afterFirst
    by_cases h : n.isPrefixOf (c :: cs) = true
    · rw [if_pos h]
      constructor
      · intro hcon
        exact absurd hcon (by simp)
      · intro hinf
        exact absurd (List.isPrefixOf_iff_prefix.mp h).isInfix hinf
    · rw [if_neg h]
      rw [ih, List.infix_cons_iff]
      constructor
      · intro hni hor
        rcases hor with hp | hi
        · exact h (List.isPrefixOf_iff_prefix.mpr hp)
        · exact hni hi
      · intro hni hi
        exact hni (Or.inr hi)

theorem afterFirst_some_decomp (n : List Char) :
    ∀ s r, afterFirst n s = some r →
      ∃ p, s = p ++ n ++ r ∧ ∀ q t, s = q ++ n ++ t → p.length ≤ q.length := by
  intro s
  induction s with
  | nil =>
    intro r h
    unfold afterFirst at h
    by_cases hp : n.isPrefixOf ([] : List Char) = true
    · rw [if_pos hp] at h
      rw [List.isPrefixOf_iff_prefix, List.prefix_nil] at hp
      subst hp
      simp only [Option.some.injEq] at h
      subst h
      exact ⟨[], by simp, fun q t hqt => by simp⟩
    · rw [if_neg hp] at h
      exact absurd h (by simp)
  | cons c cs ih =>
    intro r h
    unfold afterFirst at h
    by_cases hp : n.isPrefixOf (c :: cs) = true
    · rw [if_pos hp] at h
      simp only [Option.some.injEq] at h
      obtain ⟨t, ht⟩ := List.isPrefixOf_iff_prefix.mp hp
      refine ⟨[], ?_, ?_⟩
      · rw [List.nil_append, ← h, ← ht]
        rw [List.drop_left]
      · intro q t2 hqt
        simp
    · rw [if_neg hp] at h
      obtain ⟨p, hdec, hmin⟩ := ih r h
      refine ⟨c :: p, by rw [List.cons_append, List.cons_append, ← hdec], ?_⟩
      intro q t hqt
      cases q with
      | nil =>
        exfalso
        apply hp
        rw [List.isPrefixOf_iff_prefix]
        simp only [List.nil_append] at hqt
        exact ⟨t, hqt.symm⟩
      | cons x q2 =>
        simp only [List.cons_append, List.cons.injEq] at hqt
        have := hmin q2 t hqt.2
        simp only [List.length_cons]
        omega

theorem upToFirst_of_none (n : List Char) :
    ∀ s, afterFirst n s = none → upToFirst n s = s := by
  intro s
  induction s with
  | nil => intro _; rfl
  | cons c cs ih =>
    intro h
    unfold afterFirst at h
    unfold upToFirst
    by_cases hp : n.isPrefixOf (c :: cs) = true
    · rw [if_pos hp] at h
      exact absurd h (by simp)
    · rw [if_neg hp] at h
      rw [if_neg hp, ih h]

theorem upToFirst_decomp (n : List Char) :
    ∀ s r, afterFirst n s = some r → s = upToFirst n s ++ n ++ r := by
  intro s
  induction s with
  | nil =>
    intro r h
    unfold afterFirst at h
    by_cases hp : n.isPrefixOf ([] : List Char) = true
    · rw [if_pos hp] at h
      rw [List.isPrefixOf_iff_prefix, List.prefix_nil] at hp
      subst hp
      simp only [Option.some.injEq] at h
      subst h
      rfl
    · rw [if_neg hp] at h
      exact absurd h (by simp)
  | cons c cs ih =>
    intro r h
    unfold afterFirst at h
    unfold upToFirst
    by_cases hp : n.isPrefixOf (c :: cs) = true
    · rw [if_pos hp] at h
      simp only [Option.some.injEq] at h
      rw [if_pos hp]
      obtain ⟨t, ht⟩ := List.isPrefixOf_iff_prefix.mp hp
      rw [List.nil_append, ← h, ← ht]
      rw [List.drop_left]
    · rw [if_neg hp] at h
      rw [if_neg hp]
      rw [List.cons_append, List.cons_append]
      rw [← ih r h]

theorem upToFirst_isPrefixOf (n : List Char) : ∀ s, upToFirst n s <+: s := by
  intro s
  induction s with
  | nil => exact List.nil_prefix
  | cons c cs ih =>
    unfold upToFirst
    by_cases hp : n.isPrefixOf (c :: cs) = true
    · rw [if_pos hp]
      exact List.nil_prefix
    · rw [if_neg hp]
      exact (List.prefix_cons_inj c).mpr ih

theorem not_infix_upToFirst (n : List Char) (hn : n ≠ []) :
    ∀ s, ¬ n <:+: upToFirst n s := by
  intro s
  induction s with
  | nil =>
    unfold upToFirst
    rw [List.infix_nil]
    exact hn
  | cons c cs ih =>
    unfold upToFirst
    by_cases hp : n.isPrefixOf (c :: cs) = true
    · rw [if_pos hp, List.infix_nil]
      exact hn
    · rw [if_neg hp, List.infix_cons_iff]
      intro hor
      rcases hor with hpre | hinf
      · apply hp
        rw [List.isPrefixOf_iff_prefix]
        exact hpre.trans ((List.prefix_cons_inj c).mpr (upToFirst_isPrefixOf n cs))
      · exact ih hinf

theorem substrOf_eq_true_iff (n h : String) :
    substrOf n h = true ↔ n.data <:+: h.data := by
  unfold substrOf
  rw [Option.isSome_iff_ne_none]
  constructor
  · intro hne
    by_contra hni
    exact hne ((afterFirst_eq_none_iff n.data h.data).mpr hni)
  · intro hinf hno
    exact ((afterFirst_eq_none_iff n.data h.data).mp hno) hinf

/-! ### Theory of the `\s*\n` matcher and the category heading scan -/

theorem dropWsNl_none_no_nl :
    ∀ t, dropWsNl t = none → ('\n') ∉ t.takeWhile pyIsSpace := by
  intro t
  induction t with
  | nil =>
    intro _
    simp
  | cons c cs ih =>
    intro h
    unfold dropWsNl at h
    by_cases hsp : pyIsSpace c = true
    · rw [if_pos hsp] at h
      rw [List.takeWhile_cons_of_pos hsp]
      cases hcs : dropWsNl cs with
      | some r => rw [hcs] at h; exact absurd h (by simp)
      | none =>
        rw [hcs] at h
        by_cases hnl : c = '\n'
        · rw [if_pos hnl] at h
          exact absurd h (by simp)
        · rw [if_neg hnl] at h
          intro hmem
          rcases List.mem_cons.mp hmem with heq | hmem2
          · exact hnl heq.symm
          · exact ih hcs hmem2
    · rw [if_neg hsp] at h
      rw [List.takeWhile_cons_of_neg hsp]
      simp

theorem dropWsNl_some_decomp :
    ∀ t r, dropWsNl t = some r →
      ∃ w, t = w ++ r ∧ w ≠ [] ∧ (∀ ch ∈ w, pyIsSpace ch = true) ∧
        w.getLast? = some ('\n') ∧ ('\n') ∉ r.takeWhile pyIsSpace := by
  intro t
  induction t with
  | nil =>
    intro r h
    exact absurd h (by simp [dropWsNl])
  | cons c cs ih =>
    intro r h
    unfold dropWsNl at h
    by_cases hsp : pyIsSpace c = true
    · rw [if_pos hsp] at h
      cases hcs : dropWsNl cs with
      | some r2 =>
        rw [hcs] at h
        simp only [Option.some.injEq] at h
        subst h
        obtain ⟨w, hw, hne, hall, hlast, hnl⟩ := ih _ hcs
        refine ⟨c :: w, by rw [List.cons_append, hw], by simp, ?_, ?_, hnl⟩
        · intro ch hch
          rcases List.mem_cons.mp hch with heq | hm
          · rw [heq]; exact hsp
          · exact hall ch hm
        · cases w with
          | nil => exact absurd rfl hne
          | cons y ys => rw [List.getLast?_cons_cons]; exact hlast
      | none =>
        rw [hcs] at h
        by_cases hnl : c = '\n'
        · rw [if_pos hnl] at h
          simp only [Option.some.injEq] at h
          subst hnl
          refine ⟨[('\n')], by rw [h]; rfl, by simp, ?_, rfl, ?_⟩
          · intro ch hch
            simp at hch
            rw [hch]
            rfl
          · rw [← h]
            exact dropWsNl_none_no_nl cs hcs
        · rw [if_neg hnl] at h
          exact absurd h (by simp)
    · rw [if_neg hsp] at h
      exact absurd h (by simp)

theorem dropWsNl_ws_append_isSome :
    ∀ w v, (∀ ch ∈ w, pyIsSpace ch = true) →
      (dropWsNl (w ++ ('\n') :: v)).isSome = true := by
  intro w
  induction w with
  | nil =>
    intro v _
    rw [List.nil_append]
    unfold dropWsNl
    rw [if_pos (by rfl)]
    cases hv : dropWsNl v with
    | some r => simp
    | none => rw [if_pos rfl]; simp
  | cons c cs ih =>
    intro v hall
    rw [List.cons_append]
    unfold dropWsNl
    rw [if_pos (hall c (List.mem_cons_self c cs))]
    have hrec := ih v (fun ch hch => hall ch (List.mem_cons_of_mem c hch))
    cases hv : dropWsNl (cs ++ ('\n') :: v) with
    | some r => simp
    | none => rw [hv] at hrec; exact absurd hrec (by simp)

theorem headingMatchAt_append (lit t : List Char) :
    headingMatchAt lit (lit ++ t) = dropWsNl t := by
  unfold headingMatchAt
  rw [if_pos (List.isPrefixOf_iff_prefix.mpr (List.prefix_append lit t))]
  rw [List.drop_left]

theorem findCategoryMatch_some_decomp (lit : List Char) :
    ∀ s r, findCategoryMatch lit s = some r →
      ∃ a t, s = a ++ lit ++ t ∧ dropWsNl t = some r := by
  intro s
  induction s with
  | nil =>
    intro r h
    exact absurd h (by simp [findCategoryMatch])
  | cons c cs ih =>
    intro r h
    unfold findCategoryMatch at h
    cases hm : headingMatchAt lit (c :: cs) with
    | some r2 =>
      rw [hm] at h
      simp only [Option.some.injEq] at h
      subst h
      unfold headingMatchAt at hm
      by_cases hp : lit.isPrefixOf (c :: cs) = true
      · rw [if_pos hp] at hm
        obtain ⟨t, ht⟩ := List.isPrefixOf_iff_prefix.mp hp
        refine ⟨[], t, by rw [List.nil_append, ht], ?_⟩
        rw [← hm, ← ht, List.drop_left]
      · rw [if_neg hp] at hm
        exact absurd hm (by simp)
    | none =>
      rw [hm] at h
      obtain ⟨a, t, hdec, hdrop⟩ := ih r h
      exact ⟨c :: a, t, by rw [hdec]; simp, hdrop⟩

theorem findCategoryMatch_isSome_append (lit : List Char) :
    ∀ a rest, (headingMatchAt lit rest).isSome = true →
      (findCategoryMatch lit (a ++ rest)).isSome = true := by
  intro a
  induction a with
  | nil =>
    intro rest h
    rw [List.nil_append]
    cases rest with
    | nil =>
      exfalso
      unfold headingMatchAt at h
      by_cases hp : lit.isPrefixOf ([] : List Char) = true
      · rw [if_pos hp] at h
        rw [List.isPrefixOf_iff_prefix, List.prefix_nil] at hp
        subst hp
        simp only [List.drop_nil] at h
        rw [show dropWsNl ([] : List Char) = none from rfl] at h
        exact absurd h (by simp)
      · rw [if_neg hp] at h
        exact absurd h (by simp)
    | cons c cs =>
      unfold findCategoryMatch
      cases hm : headingMatchAt lit (c :: cs) with
      | some r => simp
      | none => rw [hm] at h; exact absurd h (by simp)
  | cons x a2 ih =>
    intro rest h
    rw [List.cons_append]
    unfold findCategoryMatch
    cases hm : headingMatchAt lit (x :: (a2 ++ rest)) with
    | some r => simp
    | none => exact ih rest h

/-! ### Lemmas about the Inspector and the Analyzer results -/

theorem modified_of_touched (env : Env) (c : String)
    (h1 : c ∈ candidates) (h2 : env.fileExists c = true)
    (h3 : substrOf c env.staged = true ∨ substrOf c env.unstaged = true) :
    check_changelog_modified env = true := by
  unfold check_changelog_modified
  by_cases hg : env.gitDirExit ≠ 0
  · rw [if_pos hg]
  · rw [if_neg hg]
    have hcmem : c ∈ candidates.filter env.fileExists := List.mem_filter.mpr ⟨h1, h2⟩
    have hne : (candidates.filter env.fileExists).isEmpty ≠ true := by
      intro hcon
      rw [List.isEmpty_iff.mp hcon] at hcmem
      exact absurd hcmem (by simp)
    rw [if_neg hne]
    by_cases hst : (candidates.filter env.fileExists).any (fun f => substrOf f env.staged) = true
    · rw [if_pos hst]
    · rw [if_neg hst]
      rcases h3 with hs | hu
      · exact absurd (List.any_eq_true.mpr ⟨c, hcmem, hs⟩) hst
      · exact List.any_eq_true.mpr ⟨c, hcmem, hu⟩

theorem not_modified (env : Env) (hg : env.gitDirExit = 0)
    (hall : ∀ c ∈ candidates, env.fileExists c = true →
      substrOf c env.staged = false ∧ substrOf c env.unstaged = false) :
    check_changelog_modified env = false := by
  unfold check_changelog_modified
  rw [if_neg (by rw [hg]; exact fun hcon => hcon rfl)]
  by_cases hemp : (candidates.filter env.fileExists).isEmpty = true
  · rw [if_pos hemp]
  · rw [if_neg hemp]
    have hstf : (candidates.filter env.fileExists).any (fun f => substrOf f env.staged) = false := by
      rw [List.any_eq_false]
      intro f hf
      obtain ⟨hmem, hex⟩ := List.mem_filter.mp hf
      rw [(hall f hmem hex).1]
      exact fun hcon => absurd hcon (by simp)
    rw [if_neg (by rw [hstf]; exact fun hcon => absurd hcon (by simp))]
    rw [List.any_eq_false]
    intro f hf
    obtain ⟨hmem, hex⟩ := List.mem_filter.mp hf
    rw [(hall f hmem hex).2]
    exact fun hcon => absurd hcon (by simp)

theorem analyzeContent_some_ne_nil (doc : String) (es : List String)
    (h : analyzeContent doc = some es) : es ≠ [] := by
  unfold analyzeContent at h
  cases hx : extractUnreleased doc with
  | none => rw [hx] at h; exact absurd h (by simp)
  | some sec =>
    rw [hx] at h
    simp only at h
    by_cases hemp : (emptySections sec).isEmpty = true
    · rw [if_pos hemp] at h
      exact absurd h (by simp)
    · rw [if_neg hemp] at h
      simp only [Option.some.injEq] at h
      subst h
      intro hcon
      rw [hcon] at hemp
      exact hemp rfl

theorem unused_some_ne_nil (env : Env) (es : List String)
    (h : check_unused_sections env = some es) : es ≠ [] := by
  unfold check_unused_sections at h
  cases hf : candidates.find? env.fileExists with
  | none => rw [hf] at h; exact absurd h (by simp)
  | some f =>
    rw [hf] at h
    simp only at h
    cases hc : env.content f with
    | none => rw [hc] at h; exact absurd h (by simp)
    | some doc =>
      rw [hc] at h
      exact analyzeContent_some_ne_nil doc es h

/-! ### Lemmas about the two block messages -/

theorem requiredReason_ne_cleanupReason (s : String) :
    requiredReason ≠ cleanupReason s := by
  intro hcon
  have hdata : requiredReason.data = (cleanupReason s).data := by rw [hcon]
  unfold cleanupReason at hdata
  rw [String.data_append, String.data_append, List.append_assoc] at hdata
  have htake := congrArg (List.take 15) hdata
  rw [List.take_append_of_le_length (show (15 : Nat) ≤ cleanupHead.data.length from by decide)] at htake
  rw [show requiredReason.data.take 15 = (("⚠️  Changelog u").data) from by decide] at htake
  rw [show cleanupHead.data.take 15 = (("⚠️  Changelog c").data) from by decide] at htake
  exact absurd htake (by decide)

theorem cleanupReason_ne_empty (s : String) : cleanupReason s ≠ ("") := by
  intro hcon
  have hdata : (cleanupReason s).data = [] := by rw [hcon]
  unfold cleanupReason at hdata
  rw [String.data_append, String.data_append] at hdata
  have := congrArg List.length hdata
  simp only [List.length_append, List.length_nil] at this
  have hh : cleanupHead.data.length = 112 := by decide
  omega

theorem requiredReason_ne_empty : requiredReason ≠ ("") := by decide

/-! ### Line-based reading of the spec sentences

The spec describes the Unreleased section as delimited by a heading LINE
matching `## [Unreleased]` and the next `## [` heading, and the per
category content as delimited by the category heading and the next
level-3 heading.  The following definitions transcribe that wording (a
heading line is a line beginning with the heading text; a level-3 heading
is a line beginning with `###`), to be compared with the source-derived
definitions above. -/

/-- Split a character list at newline characters. -/
def splitLines : List Char → List (List Char)
  | [] => [[]]
  | c :: cs =>
    if c = '\n' then [] :: splitLines cs
    else
      match splitLines cs with
      | l :: ls => (c :: l) :: ls
      | [] => [[c]]

/-- Join lines with newline characters (inverse of `splitLines`). -/
def joinLines : List (List Char) → List Char
  | [] => []
  | [l] => l
  | l :: ls => l ++ ('\n') :: joinLines ls

/-- Spec reading: the lines of the Unreleased section, when some line of
the document begins with `## [Unreleased]`; the section runs to the next
line beginning with `## [`, or to the end of the document. -/
def specSectionAfter : List (List Char) → Option (List (List Char))
  | [] => none
  | l :: ls =>
    if unrLit.isPrefixOf l then some (ls.takeWhile (fun x => !(sepLit.isPrefixOf x)))
    else specSectionAfter ls

/-- Spec reading of step 2 and 3 of the Analyzer: the Unreleased section
of a document, or `none` when no heading line introduces one. -/
def specUnreleasedSection (content : String) : Option (List Char) :=
  (specSectionAfter (splitLines content.data)).map joinLines

/-- Spec reading of step 5 of the Analyzer for one category: the lines
between the category heading line and the next level-3 heading line (or
the section end). -/
def specCategoryLines (cat : String) : List (List Char) → Option (List (List Char))
  | [] => none
  | l :: ls =>
    if (catLit cat).isPrefixOf l then some (ls.takeWhile (fun x => !(hashesLit.isPrefixOf x)))
    else specCategoryLines cat ls

/-- Spec reading of the emptiness test: the category heading is present in
the section and the text between it and the next level-3 heading (or the
section end), with HTML comment blocks stripped and whitespace trimmed,
is empty. -/
def specCategoryIsEmpty (cat : String) (sec : List Char) : Bool :=
  match specCategoryLines cat (splitLines sec) with
  | none => false
  | some contentLines =>
    (pyStrip (stripComments (pyStrip (joinLines contentLines)))).isEmpty

/-! ### Claims -/

/-- Claim C1: on a commit-intent prompt, when an existing changelog
candidate name occurs in the staged or unstaged diff output and the
Unreleased section of the changelog the Analyzer reads has at least one
present-but-empty category, the hook blocks with exit code 2 and a message
listing exactly the empty category names, in the fixed category order
Added, Changed, Deprecated, Removed, Fixed, Security, and no others. -/
theorem C1_block_lists_empty_categories
    (ev : InputEvent) (env : Env) (c f doc : String) (sec : List Char)
    (h1 : is_commit_attempt ev.prompt = true)
    (h2 : c ∈ candidates) (h3 : env.fileExists c = true)
    (h4 : substrOf c env.staged = true ∨ substrOf c env.unstaged = true)
    (h5 : candidates.find? env.fileExists = some f)
    (h6 : env.content f = some doc)
    (h7 : extractUnreleased doc = some sec)
    (h8 : emptySections sec ≠ []) :
    main (some ev) env = Outcome.block (cleanupPayload (emptySections sec)) ∧
    (main (some ev) env).exitCode = 2 ∧
    (emptySections sec).Sublist categories ∧
    (∀ cat, cat ∈ emptySections sec ↔ cat ∈ categories ∧ isEmptyCategory cat sec = true) := by
  have hmod := modified_of_touched env c h2 h3 h4
  have hcu : check_unused_sections env = some (emptySections sec) := by
    unfold check_unused_sections
    rw [h5]
    simp only
    rw [h6]
    simp only
    unfold analyzeContent
    rw [h7]
    simp only
    rw [if_neg (fun hcon => h8 (List.isEmpty_iff.mp hcon))]
  have hmain : main (some ev) env = Outcome.block (cleanupPayload (emptySections sec)) := by
    unfold main
    simp only
    rw [if_neg (fun hc => hc h1), if_pos hmod, hcu]
    simp only
    rw [if_neg (fun hcon => h8 (List.isEmpty_iff.mp hcon))]
  refine ⟨hmain, by rw [hmain]; rfl, List.filter_sublist categories, ?_⟩
  intro cat
  unfold emptySections
  exact List.mem_filter

/-- Concrete repository state for the C1 witness. -/
def envW1 : Env where
  gitDirExit := 0
  fileExists := fun f => f = ("CHANGELOG.md")
  content := fun _ => some ("## [Unreleased]\n### Added\n\n### Fixed\n- a fix\n")
  staged := ("CHANGELOG.md")
  unstaged := ("")

set_option maxRecDepth 8000 in
/-- Witness for C1 at a concrete commit prompt and repository state. -/
theorem C1_witness :
    main (some { prompt := ("git commit") }) envW1 =
      Outcome.block (cleanupPayload (emptySections (("\n### Added\n\n### Fixed\n- a fix\n").data))) :=
  (C1_block_lists_empty_categories { prompt := ("git commit") } envW1
    ("CHANGELOG.md") ("CHANGELOG.md")
    ("## [Unreleased]\n### Added\n\n### Fixed\n- a fix\n")
    (("\n### Added\n\n### Fixed\n- a fix\n").data)
    (by decide) (by decide) (by decide) (Or.inl (by decide))
    (by decide) rfl (by decide) (by decide)).1

/-- Claim C2: on a commit-intent prompt inside a git repository where
either no changelog candidate exists at the top level, or no existing
candidate name occurs in the staged or unstaged diff output, the hook
blocks with the changelog-required message and exit code 2. -/
theorem C2_block_when_untouched (ev : InputEvent) (env : Env)
    (h1 : is_commit_attempt ev.prompt = true)
    (h2 : env.gitDirExit = 0)
    (h3 : ∀ c ∈ candidates, env.fileExists c = true →
      substrOf c env.staged = false ∧ substrOf c env.unstaged = false) :
    main (some ev) env = Outcome.block requiredPayload ∧
    (main (some ev) env).exitCode = 2 := by
  have hmod := not_modified env h2 h3
  have hmain : main (some ev) env = Outcome.block requiredPayload := by
    unfold main
    simp only
    rw [if_neg (fun hc => hc h1)]
    rw [if_neg (show ¬ check_changelog_modified env = true from by rw [hmod]; simp)]
  exact ⟨hmain, by rw [hmain]; rfl⟩

/-- Concrete repository state for the C2 witness: no changelog file. -/
def envW2 : Env where
  gitDirExit := 0
  fileExists := fun _ => false
  content := fun _ => none
  staged := ("src/lib.rs")
  unstaged := ("")

/-- Witness for C2 at a concrete commit prompt and repository state. -/
theorem C2_witness :
    main (some { prompt := ("please git commit this") }) envW2 = Outcome.block requiredPayload :=
  (C2_block_when_untouched { prompt := ("please git commit this") } envW2
    (by decide) rfl (fun c hc hex => absurd hex (by exact fun h => nomatch h))).1

/-- Claim C3: on a commit-intent prompt where an existing changelog
candidate name occurs in the staged or unstaged diff output, and the
located changelog is unreadable, or has no Unreleased section, or its
Unreleased section has no present-but-empty category, the hook allows
with exit code 0 and emits no block payload. -/
theorem C3_allow_when_clean (ev : InputEvent) (env : Env) (c : String)
    (h1 : is_commit_attempt ev.prompt = true)
    (h2 : c ∈ candidates) (h3 : env.fileExists c = true)
    (h4 : substrOf c env.staged = true ∨ substrOf c env.unstaged = true)
    (h5 : ∀ f, candidates.find? env.fileExists = some f →
      env.content f = none ∨ ∃ doc, env.content f = some doc ∧
        (extractUnreleased doc = none ∨
          ∃ sec, extractUnreleased doc = some sec ∧ emptySections sec = [])) :
    main (some ev) env = Outcome.allow ∧ (main (some ev) env).exitCode = 0 := by
  have hmod := modified_of_touched env c h2 h3 h4
  have hcu : check_unused_sections env = none := by
    unfold check_unused_sections
    cases hf : candidates.find? env.fileExists with
    | none => rfl
    | some f =>
      simp only
      rcases h5 f hf with hnone | ⟨doc, hdoc, hrest⟩
      · rw [hnone]
      · rw [hdoc]
        simp only
        unfold analyzeContent
        rcases hrest with hex | ⟨sec, hsec, hemp⟩
        · rw [hex]
        · rw [hsec]
          simp only
          rw [if_pos (by rw [hemp]; rfl)]
  have hmain : main (some ev) env = Outcome.allow := by
    unfold main
    simp only
    rw [if_neg (fun hc => hc h1), if_pos hmod, hcu]
  exact ⟨hmain, by rw [hmain]; rfl⟩

/-- Concrete repository state for the C3 witness: clean changelog staged. -/
def envW3 : Env where
  gitDirExit := 0
  fileExists := fun f => f = ("CHANGELOG.md")
  content := fun _ => some ("## [Unreleased]\n### Added\n- fixed bug\n")
  staged := ("CHANGELOG.md")
  unstaged := ("")

/-- Witness for C3 at a concrete commit prompt and repository state. -/
theorem C3_witness :
    main (some { prompt := ("commit the changes") }) envW3 = Outcome.allow :=
  (C3_allow_when_clean { prompt := ("commit the changes") } envW3 ("CHANGELOG.md")
    (by decide) (by decide) (by decide) (Or.inl (by decide))
    (fun f hf => Or.inr ⟨("## [Unreleased]\n### Added\n- fixed bug\n"), rfl,
      Or.inr ⟨(("\n### Added\n- fixed bug\n").data), by decide, by decide⟩⟩)).1

/-- Claim C4: on a prompt matching none of the commit phrase patterns, the
hook allows with exit code 0 whatever the repository state is (the
conclusion holds for every environment, so no repository or changelog
observation influences it). -/
theorem C4_allow_without_commit_intent (ev : InputEvent) (env : Env)
    (h : is_commit_attempt ev.prompt = false) :
    main (some ev) env = Outcome.allow ∧ (main (some ev) env).exitCode = 0 := by
  have hmain : main (some ev) env = Outcome.allow := by
    unfold main
    simp only
    rw [if_pos (show ¬ is_commit_attempt ev.prompt = true from by rw [h]; simp)]
  exact ⟨hmain, by rw [hmain]; rfl⟩

/-- Concrete repository state for the C4 witness. -/
def envW4 : Env where
  gitDirExit := 0
  fileExists := fun _ => true
  content := fun _ => some ("## [Unreleased]\n### Added\n")
  staged := ("")
  unstaged := ("")

/-- Witness for C4 at a concrete non-commit prompt. -/
theorem C4_witness :
    main (some { prompt := ("what time is it") }) envW4 = Outcome.allow :=
  (C4_allow_without_commit_intent { prompt := ("what time is it") } envW4 (by decide)).1

/-- Claim C5: every invocation ends in one of exactly two shapes: exit 0
with no block payload (including the parse-failure fail-open, modelled by
the `none` input), or exit 2 with a printed payload whose decision field
is `block` and whose reason is a non-empty message equal to exactly one of
the two mutually exclusive block messages. -/
theorem C5_outcome_shape (input : Option InputEvent) (env : Env) :
    (main input env = Outcome.allow ∧ (main input env).exitCode = 0) ∨
    (∃ p, main input env = Outcome.block p ∧ (main input env).exitCode = 2 ∧
      p.decision = ("block") ∧ p.reason ≠ ("") ∧
      ((p.reason = requiredReason ∧ ∀ s, p.reason ≠ cleanupReason s) ∨
       (∃ es, es ≠ [] ∧ p.reason = cleanupReason (String.intercalate (", ") es) ∧
         p.reason ≠ requiredReason))) := by
  cases input with
  | none => exact Or.inl ⟨rfl, rfl⟩
  | some ev =>
    unfold main
    simp only
    by_cases h1 : ¬ is_commit_attempt ev.prompt = true
    · rw [if_pos h1]
      exact Or.inl ⟨rfl, rfl⟩
    · rw [if_neg h1]
      by_cases h2 : check_changelog_modified env = true
      · rw [if_pos h2]
        cases hcu : check_unused_sections env with
        | none => exact Or.inl ⟨rfl, rfl⟩
        | some es =>
          simp only
          have hne := unused_some_ne_nil env es hcu
          rw [if_neg (fun hc => hne (List.isEmpty_iff.mp hc))]
          refine Or.inr ⟨cleanupPayload es, rfl, rfl, rfl, cleanupReason_ne_empty _,
            Or.inr ⟨es, hne, rfl, fun hc => requiredReason_ne_cleanupReason _ hc.symm⟩⟩
      · rw [if_neg h2]
        exact Or.inr ⟨requiredPayload, rfl, rfl, rfl, requiredReason_ne_empty,
          Or.inl ⟨rfl, fun s => requiredReason_ne_cleanupReason s⟩⟩

/-- Concrete repository state for the C5 witness. -/
def envW5 : Env where
  gitDirExit := 0
  fileExists := fun _ => false
  content := fun _ => none
  staged := ("")
  unstaged := ("")

/-- Witness for C5 at the fail-open input. -/
theorem C5_witness :
    (main none envW5 = Outcome.allow ∧ (main none envW5).exitCode = 0) ∨
    (∃ p, main none envW5 = Outcome.block p ∧ (main none envW5).exitCode = 2 ∧
      p.decision = ("block") ∧ p.reason ≠ ("") ∧
      ((p.reason = requiredReason ∧ ∀ s, p.reason ≠ cleanupReason s) ∨
       (∃ es, es ≠ [] ∧ p.reason = cleanupReason (String.intercalate (", ") es) ∧
         p.reason ≠ requiredReason))) :=
  C5_outcome_shape none envW5

/-- Concrete repository state for the C6 counterexample. -/
def envC6 : Env where
  gitDirExit := 0
  fileExists := fun f => f = ("CHANGELOG.md")
  content := fun _ => some ("x## [Unreleased]\n### Added\n")
  staged := ("CHANGELOG.md")
  unstaged := ("")

set_option maxRecDepth 8000 in
/-- Claim C6 counterexample: in this document no line begins with
`## [Unreleased]`, so under the claim no Unreleased section exists and the
Analyzer must return the not-applicable sentinel, making the outcome
allow; the code instead matches the mid-line occurrence of the substring,
extracts a section, finds `Added` empty, and blocks. -/
theorem C6_counterexample :
    specUnreleasedSection ("x## [Unreleased]\n### Added\n") = none ∧
    analyzeContent ("x## [Unreleased]\n### Added\n") = some [("Added")] ∧
    main (some { prompt := ("git commit") }) envC6 =
      Outcome.block (cleanupPayload [("Added")]) :=
  ⟨by decide, by decide, by decide⟩

/-- Claim C6 as amended: the Unreleased section the Analyzer examines is
the text between the first occurrence of the substring `## [Unreleased]`
anywhere in the document (not necessarily at the start of a line) and the
next occurrence of the substring `## [`, or the end of the document; when
the substring never occurs the Analyzer returns the not-applicable
sentinel. -/
theorem C6_section_is_substring_delimited (content : String) :
    (extractUnreleased content = none ↔ ¬ unrLit <:+: content.data) ∧
    (extractUnreleased content = none → analyzeContent content = none) ∧
    (∀ sec, extractUnreleased content = some sec →
      ∃ pre rest, content.data = pre ++ unrLit ++ rest ∧
        (∀ q t, content.data = q ++ unrLit ++ t → pre.length ≤ q.length) ∧
        sec = upToFirst sepLit rest ∧
        ¬ sepLit <:+: sec ∧
        (rest = sec ∨ ∃ post, rest = sec ++ sepLit ++ post)) := by
  refine ⟨?_, ?_, ?_⟩
  · unfold extractUnreleased
    cases ha : afterFirst unrLit content.data with
    | none =>
      simp only [Option.map_none']
      constructor
      · intro _
        exact (afterFirst_eq_none_iff unrLit content.data).mp ha
      · intro _
        trivial
    | some rest =>
      simp only [Option.map_some']
      constructor
      · intro hc
        exact absurd hc (by simp)
      · intro hni
        exact absurd ha (by rw [(afterFirst_eq_none_iff unrLit content.data).mpr hni]; simp)
  · intro hnone
    unfold analyzeContent
    rw [hnone]
  · intro sec h
    unfold extractUnreleased at h
    cases ha : afterFirst unrLit content.data with
    | none => rw [ha] at h; exact absurd h (by simp)
    | some rest =>
      rw [ha] at h
      simp only [Option.map_some', Option.some.injEq] at h
      obtain ⟨pre, hdec, hmin⟩ := afterFirst_some_decomp unrLit content.data rest ha
      refine ⟨pre, rest, hdec, hmin, h.symm, ?_, ?_⟩
      · rw [← h]
        exact not_infix_upToFirst sepLit (by decide) rest
      · cases hb : afterFirst sepLit rest with
        | none =>
          left
          rw [← h, upToFirst_of_none sepLit rest hb]
        | some r2 =>
          right
          refine ⟨r2, ?_⟩
          rw [← h]
          exact upToFirst_decomp sepLit rest r2 hb

/-- Witness for the amended C6 applied at a concrete document. -/
theorem C6_witness :
    extractUnreleased ("no heading here") = none ↔
      ¬ unrLit <:+: ("no heading here").data :=
  (C6_section_is_substring_delimited ("no heading here")).1

/-- Claim C7 counterexample: in this Unreleased section the `Added`
heading is followed by the indented non-heading line ` ###x`, so under the
claim the examined content runs to the section end and is the non-empty
text `###x`, making `Added` not an empty finding; the code instead cuts
the content at the next occurrence of the substring `###` anywhere, sees
only whitespace, and records `Added` as empty, so the hook blocks. -/
theorem C7_counterexample :
    specCategoryIsEmpty ("Added") (("\n### Added\n ###x\n").data) = false ∧
    isEmptyCategory ("Added") (("\n### Added\n ###x\n").data) = true ∧
    extractUnreleased ("## [Unreleased]\n### Added\n ###x\n") =
      some (("\n### Added\n ###x\n").data) ∧
    analyzeContent ("## [Unreleased]\n### Added\n ###x\n") = some [("Added")] :=
  ⟨by decide, by decide, by decide, by decide⟩

/-- Claim C7 as amended: a category is examined when the substring
`### <Category>` followed by optional whitespace and a newline occurs
anywhere in the section (not necessarily as a heading line); the content
examined is the text from after that first match up to the next occurrence
of the substring `###` anywhere (not the next level-3 heading line), or
the section end; after removing complete HTML comment blocks and trimming
whitespace, the category is an empty finding exactly when that remainder
is empty. -/
theorem C7_category_content_is_substring_delimited (cat : String) (sec : List Char) :
    (∀ r, findCategoryMatch (catLit cat) sec = some r →
      ∃ a w, sec = a ++ catLit cat ++ w ++ r ∧ w ≠ [] ∧
        (∀ ch ∈ w, pyIsSpace ch = true) ∧ w.getLast? = some ('\n') ∧
        ('\n') ∉ r.takeWhile pyIsSpace ∧
        ¬ hashesLit <:+: upToFirst hashesLit r ∧
        (r = upToFirst hashesLit r ∨ ∃ post, r = upToFirst hashesLit r ++ hashesLit ++ post) ∧
        (isEmptyCategory cat sec = true ↔
          (pyStrip (stripComments (pyStrip (upToFirst hashesLit r)))).isEmpty = true)) ∧
    (findCategoryMatch (catLit cat) sec = none → isEmptyCategory cat sec = false) ∧
    (∀ a w v, sec = a ++ catLit cat ++ (w ++ ('\n') :: v) →
      (∀ ch ∈ w, pyIsSpace ch = true) →
      (findCategoryMatch (catLit cat) sec).isSome = true) := by
  refine ⟨?_, ?_, ?_⟩
  · intro r h
    obtain ⟨a, t, hsec, hdrop⟩ := findCategoryMatch_some_decomp (catLit cat) sec r h
    obtain ⟨w, ht, hne, hall, hlast, hnl⟩ := dropWsNl_some_decomp t r hdrop
    refine ⟨a, w, by rw [hsec, ht]; simp [List.append_assoc], hne, hall, hlast, hnl, ?_, ?_, ?_⟩
    · exact not_infix_upToFirst hashesLit (by decide) r
    · cases hb : afterFirst hashesLit r with
      | none => left; rw [upToFirst_of_none hashesLit r hb]
      | some r2 => right; exact ⟨r2, upToFirst_decomp hashesLit r r2 hb⟩
    · unfold isEmptyCategory
      rw [h]
  · intro h
    unfold isEmptyCategory
    rw [h]
  · intro a w v hsec hws
    rw [hsec, List.append_assoc]
    apply findCategoryMatch_isSome_append
    rw [headingMatchAt_append]
    exact dropWsNl_ws_append_isSome w v hws

/-- Witness for the amended C7 applied at a concrete section. -/
theorem C7_witness :
    (findCategoryMatch (catLit ("Added")) (("\n### Added\n- x\n").data)).isSome = true :=
  (C7_category_content_is_substring_delimited ("Added") (("\n### Added\n- x\n").data)).2.2
    (("\n").data) [] (("- x\n").data) (by decide) (by simp)

/-- Concrete repository state for the C8 counterexample: not a git
repository, but a changelog with an empty Unreleased category exists. -/
def envC8 : Env where
  gitDirExit := 1
  fileExists := fun f => f = ("CHANGELOG.md")
  content := fun _ => some ("## [Unreleased]\n### Added\n")
  staged := ("")
  unstaged := ("")

set_option maxRecDepth 8000 in
/-- Claim C8 counterexample: on a commit-intent prompt outside a git
repository (failed repository-root probe) the claim demands exit 0; the
code treats the changelog as touched and still runs the Analyzer, which
here finds the `Added` category empty, so the hook blocks with exit 2. -/
theorem C8_counterexample :
    is_commit_attempt ("git commit") = true ∧
    envC8.gitDirExit ≠ 0 ∧
    main (some { prompt := ("git commit") }) envC8 =
      Outcome.block (cleanupPayload [("Added")]) ∧
    (main (some { prompt := ("git commit") }) envC8).exitCode = 2 :=
  ⟨by decide, by decide, by decide, by decide⟩

/-- Claim C8 as amended: on a commit-intent prompt whose repository-root
probe fails (nonzero exit, timeout or exception), the Inspector fail-opens
to "changelog touched", so the hook allows with exit 0 unless the Analyzer
finds present-but-empty categories, in which case it still blocks with the
cleanup message. -/
theorem C8_nonrepo_failopen (ev : InputEvent) (env : Env)
    (h1 : is_commit_attempt ev.prompt = true)
    (h2 : env.gitDirExit ≠ 0) :
    (check_unused_sections env = none → main (some ev) env = Outcome.allow) ∧
    (∀ es, check_unused_sections env = some es →
      es ≠ [] ∧ main (some ev) env = Outcome.block (cleanupPayload es)) := by
  have hmod : check_changelog_modified env = true := by
    unfold check_changelog_modified
    rw [if_pos h2]
  constructor
  · intro hcu
    unfold main
    simp only
    rw [if_neg (fun hc => hc h1), if_pos hmod, hcu]
  · intro es hcu
    refine ⟨unused_some_ne_nil env es hcu, ?_⟩
    unfold main
    simp only
    rw [if_neg (fun hc => hc h1), if_pos hmod, hcu]
    simp only
    rw [if_neg (fun hc => unused_some_ne_nil env es hcu (List.isEmpty_iff.mp hc))]

/-- Concrete repository state for the C8 witness: no repository and no
changelog file at all. -/
def envW8 : Env where
  gitDirExit := 1
  fileExists := fun _ => false
  content := fun _ => none
  staged := ("")
  unstaged := ("")

/-- Witness for the amended C8 at a concrete commit prompt. -/
theorem C8_witness :
    main (some { prompt := ("git commit") }) envW8 = Outcome.allow :=
  (C8_nonrepo_failopen { prompt := ("git commit") } envW8 (by decide) (by decide)).1 (by decide)

/-- Claim C9: the Analyzer is deterministic in the changelog content: two
invocations that locate the same file and read the same content yield
identical findings (the same list of empty category names or the same
not-applicable sentinel), whatever the rest of the repository state is. -/
theorem C9_analysis_determined_by_content (env1 env2 : Env)
    (h1 : candidates.find? env1.fileExists = candidates.find? env2.fileExists)
    (h2 : ∀ f, env1.content f = env2.content f) :
    check_unused_sections env1 = check_unused_sections env2 := by
  unfold check_unused_sections
  rw [h1]
  cases hf : candidates.find? env2.fileExists with
  | none => rfl
  | some f =>
    simp only
    rw [h2 f]

/-- First concrete repository state for the C9 witness. -/
def envW9a : Env where
  gitDirExit := 0
  fileExists := fun _ => false
  content := fun _ => none
  staged := ("CHANGELOG.md")
  unstaged := ("")

/-- Second concrete repository state for the C9 witness: same files and
content, different git state. -/
def envW9b : Env where
  gitDirExit := 1
  fileExists := fun _ => false
  content := fun _ => none
  staged := ("")
  unstaged := ("src/main.rs")

/-- Witness for C9 at two concrete repository states. -/
theorem C9_witness :
    check_unused_sections envW9a = check_unused_sections envW9b :=
  C9_analysis_determined_by_content envW9a envW9b (by decide) (fun f => rfl)

/-- Claim C10: the Inspector tests each existing candidate filename as a
raw substring of the whole diff output, not against individual listed
paths: whenever a candidate exists and its name is an infix of the staged
or unstaged output (for example inside `docs/changelog.md` or
`OLD_CHANGELOG.md.bak`), the changelog counts as updated. -/
theorem C10_substring_containment (env : Env) (c : String)
    (h1 : c ∈ candidates) (h2 : env.fileExists c = true)
    (h3 : c.data <:+: env.staged.data ∨ c.data <:+: env.unstaged.data) :
    check_changelog_modified env = true := by
  apply modified_of_touched env c h1 h2
  rcases h3 with h | h
  · exact Or.inl ((substrOf_eq_true_iff c env.staged).mpr h)
  · exact Or.inr ((substrOf_eq_true_iff c env.unstaged).mpr h)

/-- Concrete repository state for the C10 witness: the staged output lists
only `docs/changelog.md`, yet the top-level `changelog.md` counts as
touched because its name is a substring of that path. -/
def envW10 : Env where
  gitDirExit := 0
  fileExists := fun f => f = ("changelog.md")
  content := fun _ => none
  staged := ("docs/changelog.md")
  unstaged := ("")

/-- Witness for C10 at a concrete repository state. -/
theorem C10_witness : check_changelog_modified envW10 = true :=
  C10_substring_containment envW10 ("changelog.md") (by decide) (by decide)
    (Or.inl ⟨("docs/").data, [], by decide⟩)

end ChangelogHook
